import Mathlib

/-
Shallow embedding of `src/erkomaishvili_analysis.py`, a batch musicological
analysis of three-voice chant transcriptions.  The music21 library objects
are modelled structurally: a pitch is a diatonic step, a chromatic alteration
and an octave; `Pitch.ps` models `music21.pitch.Pitch.ps` (middle C = 60) and
`intervalName` models `music21.interval.Interval(a, b).name` (undirected
quality + generic size, e.g. "P5", "M3", "m3", "A2").  A note carries its
pitch and the list of attached lyric texts.

Python's `set` of pitch-class name strings has an unspecified (hash-seeded)
iteration order; functions that consume such a set take the iteration order
as an explicit list parameter (or an order oracle `so`), which is the honest
nondeterminism of the source.
-/

namespace Erko

/-- Diatonic letter step of a pitch, C through B. -/
inductive Step
  | C | D | E | F | G | A | B
deriving DecidableEq

/-- Position of the letter in the diatonic scale (C = 0 .. B = 6). -/
def Step.idx : Step → Int
  | .C => 0 | .D => 1 | .E => 2 | .F => 3 | .G => 4 | .A => 5 | .B => 6

/-- Semitone offset of the natural letter above C (C=0, D=2, E=4, F=5, G=7, A=9, B=11). -/
def Step.semis : Step → Int
  | .C => 0 | .D => 2 | .E => 4 | .F => 5 | .G => 7 | .A => 9 | .B => 11

/-- Letter name of the step. -/
def Step.str : Step → String
  | .C => "C" | .D => "D" | .E => "E" | .F => "F" | .G => "G" | .A => "A" | .B => "B"

/-- A pitch class: a letter step plus a chromatic alteration (sharps positive,
flats negative), i.e. what `music21` renders as `pitch.name` ("C", "D#", "E-", ...). -/
structure PC where
  step : Step
  alter : Int
deriving DecidableEq

/-- Accidental rendering used by music21 pitch names: `#` per sharp, `-` per flat. -/
def accidentalStr (a : Int) : String :=
  if 0 ≤ a then String.join (List.replicate a.toNat "#")
  else String.join (List.replicate (-a).toNat "-")

/-- The pitch-class name string, e.g. "C", "D#", "E-". -/
def PC.name (p : PC) : String := p.step.str ++ accidentalStr p.alter

/-- Pitch space value of `music21.pitch.Pitch(name)` for an octave-less name:
music21 defaults the octave to 4, so `Pitch("C").ps = 60`. -/
def PC.ps (p : PC) : Int := 60 + p.step.semis + p.alter

/-- A concrete pitch with octave, as carried by a note in the score. -/
structure Pitch where
  step : Step
  alter : Int
  octave : Int
deriving DecidableEq

/-- The pitch class of a pitch (name without the octave, `pitch.name` in music21). -/
def Pitch.pc (p : Pitch) : PC := ⟨p.step, p.alter⟩

/-- The pitch-class name of a pitch, `n.pitch.name` in the source. -/
def Pitch.pcName (p : Pitch) : String := p.pc.name

/-- Pitch space (`.ps`): middle C (C4) is 60, one unit per semitone. -/
def Pitch.ps (p : Pitch) : Int := 12 * (p.octave + 1) + p.step.semis + p.alter

/-- Diatonic note number: one unit per letter step, seven per octave. -/
def Pitch.dnn (p : Pitch) : Int := 7 * p.octave + p.step.idx

/-- A note event: a pitch plus the attached lyric texts (the second lyric,
when present, is the QNR location label). -/
structure Note where
  pitch : Pitch
  lyrics : List String
deriving DecidableEq

/-- `music21.interval.Interval(a, b).semitones`: directed pitch-space difference. -/
def semitones (a b : Pitch) : Int := b.ps - a.ps

/-- Semitone span of the major/perfect interval of a simple generic size
(1 = unison, 2 = second, ..., 7 = seventh). -/
def baseSemis (simple : Int) : Int :=
  if simple = 1 then 0
  else if simple = 2 then 2
  else if simple = 3 then 4
  else if simple = 4 then 5
  else if simple = 5 then 7
  else if simple = 6 then 9
  else 11

/-- Quality letters of an interval: `diff` is the semitone excess over the
perfect (for unison/fourth/fifth type) or major (otherwise) span. -/
def qualityStr (perfectType : Bool) (diff : Int) : String :=
  if perfectType then
    if diff = 0 then "P"
    else if 0 < diff then String.join (List.replicate diff.toNat "A")
    else String.join (List.replicate (-diff).toNat "d")
  else
    if diff = 0 then "M"
    else if diff = -1 then "m"
    else if 0 < diff then String.join (List.replicate diff.toNat "A")
    else String.join (List.replicate ((-diff) - 1).toNat "d")

/-- Interval name from a nonnegative generic step difference `ds` and the
corresponding directed semitone difference `ss`. -/
def intervalNameAux (ds ss : Int) : String :=
  let simple := ds % 7 + 1
  let adjusted := ss - 12 * (ds / 7)
  let diff := adjusted - baseSemis simple
  qualityStr (decide (simple = 1 ∨ simple = 4 ∨ simple = 5)) diff ++ toString (ds + 1)

/-- `music21.interval.Interval(a, b).name`: undirected quality + size, e.g.
"P5", "m3", "A2".  music21 reports the same name for an interval and its
reversal, so the pitch pair is orientation-normalized first. -/
def intervalName (a b : Pitch) : String :=
  let ds := b.dnn - a.dnn
  let ss := b.ps - a.ps
  if ds < 0 ∨ (ds = 0 ∧ ss < 0) then intervalNameAux (-ds) (-ss)
  else intervalNameAux ds ss

/-- Python `" ".join(l)`. -/
def joinSpace : List String → String
  | [] => ""
  | [s] => s
  | s :: rest => s ++ " " ++ joinSpace rest

/-- Sort key of `extract_mode` (line 48 of the source):
`(music21.pitch.Pitch(x).ps - music21.pitch.Pitch(center_pc).ps) % 12`,
with Python's nonnegative `%`. -/
def sortKey (center : PC) (p : PC) : Int := (p.ps - center.ps) % 12

/-- Comparison relation underlying Python's stable `sorted` call in `extract_mode`. -/
def pcLe (center : PC) (a b : PC) : Prop := sortKey center a ≤ sortKey center b

instance (c : PC) : DecidableRel (pcLe c) := fun a b => Int.decLe (sortKey c a) (sortKey c b)

instance (c : PC) : IsTotal PC (pcLe c) := ⟨fun a b => Int.le_total (sortKey c a) (sortKey c b)⟩

instance (c : PC) : IsTrans PC (pcLe c) := ⟨fun _ _ _ h₁ h₂ => le_trans h₁ h₂⟩

/-- Python's `sorted(pitch_classes, key=...)` is a stable sort by the key;
insertion sort with `pcLe` is exactly that.  The argument `pcs` is the
iteration order of the Python set `pitch_classes` (after `add(center_pc)`). -/
def sortedPitches (pcs : List PC) (center : PC) : List PC :=
  List.insertionSort (pcLe center) pcs

/-- Line 51: `sorted_pitches.index(center_pc)`, the first position whose name
is the center's (always found, since the center was added to the set). -/
def modeIdx (pcs : List PC) (center : PC) : Nat :=
  (sortedPitches pcs center).findIdx (fun p => p.name == center.name)

/-- Lines 47-54 of `extract_mode`: sort the pitch-class set by mod-12 distance
from the center, rotate so the center pitch class comes first, as names. -/
def extract_mode_tokens (pcs : List PC) (center : PC) : List String :=
  ((sortedPitches pcs center).drop (modeIdx pcs center) ++
   (sortedPitches pcs center).take (modeIdx pcs center)).map PC.name

/-- `ChantAnalyzer.extract_mode` (lines 33-59): empty note list gives `""`,
otherwise the space-joined rotated pitch-class names.  `pcs` is the iteration
order of the set of pitch-class names of `notes` with the center's class added;
the `try/except` cannot fire in this model because every structured pitch name
is well-formed and the center is a member of the set. -/
def extract_mode (pcs : List PC) (notes : List Note) (centerNote : Note) : String :=
  if notes.isEmpty then "" else joinSpace (extract_mode_tokens pcs centerNote.pitch.pc)

/-- A set-iteration-order oracle: given the encounter-order names occurring in
a mode computation (note pitch-class names followed by the center's name), it
returns the order in which Python would iterate the resulting set. -/
def SetOrder : Type := List String → List PC

/-- `extract_mode` as called inside the analyzer, with the set order supplied
by the oracle from the names involved. -/
def extract_modeO (so : SetOrder) (notes : List Note) (centerNote : Note) : String :=
  extract_mode (so ((notes.map (fun n => n.pitch.pcName)) ++ [centerNote.pitch.pcName]))
    notes centerNote

/-- Default note used only to make positional indexing total; every indexed
access in the model is guarded by the same bounds checks as the source. -/
def dfltNote : Note := ⟨⟨Step.C, 0, 4⟩, []⟩

/-- `notes[i]` with the source's bounds already established by guards. -/
def noteAt (notes : List Note) (i : Nat) : Note := notes.getD i dfltNote

/-- Local function `check_consecutive_notes` (lines 205-217): every consecutive
note pair whose interval name equals `target` and whose two notes each carry
at least two lyrics contributes the pair of second lyrics (QNR labels). -/
def check_consecutive_notes : List Note → String → List (String × String)
  | n₁ :: n₂ :: rest, target =>
    (if intervalName n₁.pitch n₂.pitch = target ∧
        1 < n₁.lyrics.length ∧ 1 < n₂.lyrics.length
     then [(n₁.lyrics.getD 1 "", n₂.lyrics.getD 1 "")] else []) ++
    check_consecutive_notes (n₂ :: rest) target
  | _, _ => []

/-- The three consecutive semitone intervals of the window starting at `i`
(lines 225-229); meaningful when `i + 3 < notes.length`. -/
def tetraIvals (notes : List Note) (i : Nat) : List Int :=
  [semitones (noteAt notes i).pitch (noteAt notes (i + 1)).pitch,
   semitones (noteAt notes (i + 1)).pitch (noteAt notes (i + 2)).pitch,
   semitones (noteAt notes (i + 2)).pitch (noteAt notes (i + 3)).pitch]

/-- Lines 231-236: the has-fifth flag is set when a note exists at `i + 4` and
the interval from note `i` to note `i + 4` is named a perfect fifth. -/
def hasFifthAt (notes : List Note) (i : Nat) : Bool :=
  decide (i + 4 < notes.length) &&
  decide (intervalName (noteAt notes i).pitch (noteAt notes (i + 4)).pitch = "P5")

/-- Local function `check_tetrachord` (lines 219-248): `(None, False)` when
fewer than four notes remain, otherwise exact match of the semitone triple
against the four fixed shapes, paired with the has-fifth flag. -/
def check_tetrachord (notes : List Note) (i : Nat) : Option String × Bool :=
  if notes.length ≤ i + 3 then (none, false)
  else if tetraIvals notes i = [2, 2, 1] then (some "major", hasFifthAt notes i)
  else if tetraIvals notes i = [2, 1, 2] then (some "minor", hasFifthAt notes i)
  else if tetraIvals notes i = [1, 3, 1] then (some "phrygian", hasFifthAt notes i)
  else if tetraIvals notes i = [2, 2, 2] then (some "lydian", hasFifthAt notes i)
  else (none, false)

/-- The notes the source reads annotations from at start index `i`: the four
window notes, plus the note at `i + 4` when the has-fifth flag is set. -/
def contributingNotes (notes : List Note) (i : Nat) : List Note :=
  (notes.drop i).take (if (check_tetrachord notes i).2 then 5 else 4)

/-- Line 270: all four window notes carry at least two lyrics. -/
def tetraBaseOk (notes : List Note) (i : Nat) : Bool :=
  ((notes.drop i).take 4).all (fun n => decide (1 < n.lyrics.length))

/-- Line 271: the QNR labels (second lyrics) of the four window notes. -/
def tetraQnrs (notes : List Note) (i : Nat) : List String :=
  ((notes.drop i).take 4).map (fun n => n.lyrics.getD 1 "")

/-- Lines 272-275: the pattern key and QNR list; the `_fifth` suffix and the
fifth QNR are added only when the has-fifth flag is set and the note at
`i + 4` exists and carries at least two lyrics. -/
def tetraKeyQnrs (notes : List Note) (i : Nat) (t : String) (hf : Bool) :
    String × List String :=
  if hf = true ∧ i + 4 < notes.length ∧ 1 < (noteAt notes (i + 4)).lyrics.length
  then (t ++ "_tetrachord" ++ "_fifth",
        tetraQnrs notes i ++ [(noteAt notes (i + 4)).lyrics.getD 1 ""])
  else (t ++ "_tetrachord", tetraQnrs notes i)

/-- The tetrachord branch of `find_melodic_patterns` for one start index
(lines 266-291): the pattern key and QNR list appended for index `i`, or
`none` when the iteration records nothing there.  Emission happens when the
has-fifth flag is set, or else when a note exists at `i + 4` whose interval
from note `i` is not named a perfect fifth. -/
def tetrachordEmission (notes : List Note) (i : Nat) : Option (String × List String) :=
  match check_tetrachord notes i with
  | (none, _) => none
  | (some t, hf) =>
    if tetraBaseOk notes i then
      if hf then some (tetraKeyQnrs notes i t hf)
      else if i + 4 < notes.length ∧
              intervalName (noteAt notes i).pitch (noteAt notes (i + 4)).pitch ≠ "P5"
      then some (tetraKeyQnrs notes i t hf)
      else none
    else none

/-- A voice part: its notes partitioned into measures, in order (index 0 is
measure 1).  `voice.recurse().notes` is the concatenation of the measures. -/
structure Part where
  measures : List (List Note)
deriving DecidableEq

/-- `get_notes_in_voice` over a whole part. -/
def partNotes (p : Part) : List Note := p.measures.flatten

/-- `voice.measure(i+1)` followed by `get_notes_in_voice`: the notes of the
measure, empty when the measure is missing (both conditions make the source
skip the voice for that measure). -/
def measureNotes (p : Part) (i : Nat) : List Note := (p.measures[i]?).getD []

/-- Center selection of `get_mukhli_modes` (lines 113-127): the voice's last
note in the measure, except that a non-bass voice's candidate is replaced by
the bass's last note in the measure when the interval between them is named a
perfect fifth; `none` when the voice has no notes in the measure. -/
def mukhliCenter (isBass : Bool) (notes bassNotes : List Note) : Option Note :=
  match notes.getLast? with
  | none => none
  | some fin =>
    if isBass then some fin
    else
      match bassNotes.getLast? with
      | none => some fin
      | some bl => if intervalName bl.pitch fin.pitch = "P5" then some bl else some fin

/-- One voice's contribution to a measure's record (lines 100-128): nothing if
the voice has no notes there, else the mode string around the selected center. -/
def measureEntry (so : SetOrder) (vname : String) (isBass : Bool)
    (mnotes bassNotes : List Note) : List (String × String) :=
  match mukhliCenter isBass mnotes bassNotes with
  | none => []
  | some c => [(vname ++ "_mode", extract_modeO so mnotes c)]

/-- The combined entry of a measure (lines 133-147): all three voices' notes
in the measure, centered on the bass's last note there when the bass has any,
else on the last note of the combined list. -/
def combinedEntry (so : SetOrder) (t m b : Part) (i : Nat) : List (String × String) :=
  let allNotes := measureNotes t i ++ measureNotes m i ++ measureNotes b i
  match allNotes.getLast? with
  | none => []
  | some lastAll =>
    [("combined_mode",
      extract_modeO so allNotes (((measureNotes b i).getLast?).getD lastAll))]

/-- `get_mukhli_modes` (lines 85-151), reachable part: one record per measure
of the top (driving) voice. -/
def get_mukhli_modes (so : SetOrder) (t m b : Part) : List (List (String × String)) :=
  (List.range t.measures.length).map (fun i =>
    measureEntry so "top" false (measureNotes t i) (measureNotes b i) ++
    measureEntry so "middle" false (measureNotes m i) (measureNotes b i) ++
    measureEntry so "bass" true (measureNotes b i) (measureNotes b i) ++
    combinedEntry so t m b i)

/-- One voice's entry in `get_full_modes` (lines 68-73): present only when the
voice has notes, centered on the voice's own last note. -/
def fullModeEntry (so : SetOrder) (vname : String) (notes : List Note) :
    List (String × String) :=
  match notes.getLast? with
  | none => []
  | some fin => [(vname ++ "_mode", extract_modeO so notes fin)]

/-- `get_full_modes` (lines 61-83): per-voice modes in dict insertion order
(top, middle, bass), then the combined mode over the concatenation of all
voices' notes centered on the bass's last note (skipped when the bass is
empty or there are no notes at all). -/
def get_full_modes (so : SetOrder) (t m b : Part) : List (String × String) :=
  fullModeEntry so "top" (partNotes t) ++
  fullModeEntry so "middle" (partNotes m) ++
  fullModeEntry so "bass" (partNotes b) ++
  (match (partNotes b).getLast? with
   | none => []
   | some bl =>
     if (partNotes t ++ partNotes m ++ partNotes b).isEmpty then []
     else [("combined_mode", extract_modeO so (partNotes t ++ partNotes m ++ partNotes b) bl)])

/-- The `patterns` dictionary: association list in key insertion order, each
key holding its occurrence strings in append order (`defaultdict(list)`). -/
def getOcc (ps : List (String × List String)) (k : String) : List String :=
  match ps.find? (fun e => e.1 == k) with
  | some e => e.2
  | none => []

/-- `patterns[k].append v`, creating the key at the end on first touch. -/
def addOcc (ps : List (String × List String)) (k : String) (v : String) :
    List (String × List String) :=
  if (ps.find? (fun e => e.1 == k)).isSome then
    ps.map (fun e => if e.1 == k then (e.1, e.2 ++ [v]) else e)
  else ps ++ [(k, [v])]

/-- Occurrence strings for the melodic-interval pairs of one voice (lines
260-263): `enumerate(locations, 1)` renders `idx.gch.voice.q1-q2`. -/
def numberPairs (g vs : String) : Nat → List (String × String) → List String
  | _, [] => []
  | k, pr :: rest =>
    (toString k ++ "." ++ g ++ "." ++ vs ++ "." ++ pr.1 ++ "-" ++ pr.2) ::
    numberPairs g vs (k + 1) rest

/-- Lines 254-263: the three target interval patterns, scanned per voice. -/
def addIntervalPatterns (g : String) (v : Nat) (notes : List Note)
    (ps : List (String × List String)) : List (String × List String) :=
  [("P4", "P4"), ("M3", "M3"), ("m3", "m3")].foldl
    (fun ps pr =>
      (numberPairs g (toString v) 1 (check_consecutive_notes notes pr.2)).foldl
        (fun ps s => addOcc ps pr.1 s) ps)
    ps

/-- The occurrence string of a tetrachord hit, numbered by the current length
of the key's list (lines 281-282, 290-291): `n.gch.voice.firstQNR-lastQNR`. -/
def tetraOccString (g : String) (v n : Nat) (qnrs : List String) : String :=
  toString n ++ "." ++ g ++ "." ++ toString v ++ "." ++ qnrs.headD "" ++ "-" ++ qnrs.getLastD ""

/-- Lines 266-291: the tetrachord scan of one voice, folded over every start
index with the patterns dictionary as state. -/
def addTetrachords (g : String) (v : Nat) (notes : List Note)
    (ps0 : List (String × List String)) : List (String × List String) :=
  (List.range notes.length).foldl
    (fun ps i =>
      match tetrachordEmission notes i with
      | none => ps
      | some kq => addOcc ps kq.1 (tetraOccString g v ((getOcc ps kq.1).length + 1) kq.2))
    ps0

/-- `find_melodic_patterns` (lines 201-293): both pattern families over the
three voices, `voice_idx` enumerated from 1 in dict order top, middle, bass. -/
def find_melodic_patterns (g : String) (t m b : Part) : List (String × List String) :=
  [(1, t), (2, m), (3, b)].foldl
    (fun ps vp => addTetrachords g vp.1 (partNotes vp.2) (addIntervalPatterns g vp.1 (partNotes vp.2) ps))
    []

/-- Python `s.endswith(t)`, over the character sequences. -/
def strEndsWith (s t : String) : Bool :=
  s.data.drop (s.data.length - t.data.length) == t.data

/-- Python `s.split(sep)` for a one-character separator, over characters:
splitting never drops empty fields and the empty string yields one field. -/
def splitOnChar (sep : Char) : List Char → List (List Char)
  | [] => [[]]
  | c :: rest =>
    if c = sep then [] :: splitOnChar sep rest
    else
      match splitOnChar sep rest with
      | [] => [[c]]
      | g :: gs => (c :: g) :: gs

/-- Python `filename.split('_')`. -/
def strSplitUnderscore (s : String) : List String :=
  (splitOnChar (Char.ofNat 95) s.data).map (fun l => String.mk l)

/-- `extract_gch_id` (lines 15-18): second underscore-delimited token of the
filename; `none` models the uncaught `IndexError` when it is missing. -/
def extract_gch_id (filename : String) : Option String := (strSplitUnderscore filename)[1]?

/-- `extract_voices` (lines 20-27): the first three parts as top, middle,
bass; `none` models the uncaught `IndexError` on scores with fewer parts. -/
def extract_voices (parts : List Part) : Option (Part × Part × Part) :=
  match parts[0]?, parts[1]?, parts[2]? with
  | some t, some m, some b => some (t, m, b)
  | _, _, _ => none

/-- The three per-chant records collected by the driver's second pass. -/
structure ChantResult where
  fullModes : List (String × String)
  mukhliModes : List (List (String × String))
  patterns : List (String × List String)
deriving DecidableEq

/-- The analyses run on a parsed score, as determined by `extract_voices` and
the chant id; `none` when the score has fewer than three parts. -/
def chantAnalysis (so : SetOrder) (g : String) (parts : List Part) : Option ChantResult :=
  match extract_voices parts with
  | none => none
  | some vs =>
    some ⟨get_full_modes so vs.1 vs.2.1 vs.2.2,
          get_mukhli_modes so vs.1 vs.2.1 vs.2.2,
          find_melodic_patterns g vs.1 vs.2.1 vs.2.2⟩

/-- An input file of the corpus: its name and the outcome of the external
`music21.converter.parse` call (an exception is an `error`). -/
structure RawFile where
  filename : String
  parsed : Except String (List Part)

/-- `ChantAnalyzer.__init__` (lines 9-13) followed by the analyses: parse the
score, take the first three parts, read the chant id from the filename.  None
of these steps is guarded in the source, so each failure is an error that
propagates to the caller. -/
def analyzeChant (so : SetOrder) (f : RawFile) : Except String ChantResult :=
  match f.parsed with
  | Except.error e => Except.error e
  | Except.ok parts =>
    match extract_voices parts with
    | none => Except.error "IndexError: score has fewer than three parts"
    | some vs =>
      match extract_gch_id f.filename with
      | none => Except.error "IndexError: filename has no second underscore token"
      | some g =>
        Except.ok ⟨get_full_modes so vs.1 vs.2.1 vs.2.2,
                   get_mukhli_modes so vs.1 vs.2.1 vs.2.2,
                   find_melodic_patterns g vs.1 vs.2.1 vs.2.2⟩

/-- `process_chant_files` (lines 295-341): iterate the sorted directory
listing, handling only files ending in `.xml` (case-sensitive), building each
chant's analyzer and collecting its records.  There is no `try/except` around
the loop, so the first per-chant failure aborts the whole run (the first pass
already builds every analyzer). -/
def process_chant_files (so : SetOrder) : List RawFile → Except String (List ChantResult)
  | [] => Except.ok []
  | f :: fs =>
    if strEndsWith f.filename ".xml" then
      match analyzeChant so f with
      | Except.error e => Except.error e
      | Except.ok r =>
        match process_chant_files so fs with
        | Except.error e => Except.error e
        | Except.ok rs => Except.ok (r :: rs)
    else process_chant_files so fs

/-- The `__main__` guard (lines 386-390): when the input directory is missing
the program prints a message and exits gracefully (modelled as `ok none`);
otherwise it runs the driver, whose errors propagate uncaught. -/
def mainEntry (so : SetOrder) (dataDirExists : Bool) (files : List RawFile) :
    Except String (Option (List ChantResult)) :=
  if dataDirExists then (process_chant_files so files).map some else Except.ok none

/-- Truth of `Except.error`. -/
def isErr : Except String α → Bool
  | Except.error _ => true
  | Except.ok _ => false

/-- The classification table of lines 239-248 as a function of the semitone
triple alone: [2,2,1] major, [2,1,2] minor, [1,3,1] phrygian, [2,2,2] lydian. -/
def matchTriple (v : List Int) : Option String :=
  if v = [2, 2, 1] then some "major"
  else if v = [2, 1, 2] then some "minor"
  else if v = [1, 3, 1] then some "phrygian"
  else if v = [2, 2, 2] then some "lydian"
  else none

/-- Concrete notes used by witnesses and counterexamples.  Each carries a
syllable lyric and a QNR lyric unless stated otherwise. -/
def wC4 : Note := ⟨⟨Step.C, 0, 4⟩, ["ga", "1"]⟩

/-- D4 with two lyrics. -/
def wD4 : Note := ⟨⟨Step.D, 0, 4⟩, ["lo", "2"]⟩

/-- E4 with two lyrics. -/
def wE4 : Note := ⟨⟨Step.E, 0, 4⟩, ["ba", "3"]⟩

/-- F4 with two lyrics. -/
def wF4 : Note := ⟨⟨Step.F, 0, 4⟩, ["ri", "4"]⟩

/-- G4 with two lyrics. -/
def wG4 : Note := ⟨⟨Step.G, 0, 4⟩, ["mo", "5"]⟩

/-- A4 with two lyrics. -/
def wA4 : Note := ⟨⟨Step.A, 0, 4⟩, ["za", "5"]⟩

/-- G4 with no lyrics at all (no QNR annotation). -/
def wG4bare : Note := ⟨⟨Step.G, 0, 4⟩, []⟩

/-- D#4 with two lyrics (an augmented second above C4). -/
def wDs4 : Note := ⟨⟨Step.D, 1, 4⟩, ["qa", "2"]⟩

/-- E-4 (E flat) with two lyrics (a minor third above C4). -/
def wEb4 : Note := ⟨⟨Step.E, -1, 4⟩, ["ra", "3"]⟩

/-- A major tetrachord C D E F whose fifth note G forms a perfect fifth with
the start but carries no annotations. -/
def cexFifthNotes : List Note := [wC4, wD4, wE4, wF4, wG4bare]

/-- A fully annotated major tetrachord plus perfect fifth. -/
def witFifthNotes : List Note := [wC4, wD4, wE4, wF4, wG4]

/-- A fully annotated major tetrachord whose fifth note A4 does not form a
perfect fifth with the start (C4 to A4 is a major sixth). -/
def witNoFifthNotes : List Note := [wC4, wD4, wE4, wF4, wA4]

/-- One possible iteration order of the set of pitch-class names C, D#, E-. -/
def ordA : List PC := [⟨Step.C, 0⟩, ⟨Step.D, 1⟩, ⟨Step.E, -1⟩]

/-- Another iteration order of the same set, with the enharmonic pair swapped. -/
def ordB : List PC := [⟨Step.C, 0⟩, ⟨Step.E, -1⟩, ⟨Step.D, 1⟩]

/-- A well-parsed three-part score file whose filename lacks the underscore
structure the driver requires. -/
def badFile : RawFile := ⟨"GCH.xml", Except.ok [Part.mk [], Part.mk [], Part.mk []]⟩

/-- A set-order oracle used for closed instances; any oracle does. -/
def soEmpty : SetOrder := fun _ => []

/-- A one-measure part holding C4 and D4. -/
def ptA : Part := ⟨[[wC4, wD4]]⟩

/-- A one-measure part holding E4. -/
def ptB : Part := ⟨[[wE4]]⟩

/-- A one-measure part holding C4. -/
def ptC : Part := ⟨[[wC4]]⟩

/-- A surplus fourth part holding G4. -/
def ptD : Part := ⟨[[wG4]]⟩

/-- An iteration order of the tie-free set C, D, E. -/
def ordC : List PC := [⟨Step.C, 0⟩, ⟨Step.D, 0⟩, ⟨Step.E, 0⟩]

/-- Another iteration order of the same tie-free set. -/
def ordD : List PC := [⟨Step.E, 0⟩, ⟨Step.C, 0⟩, ⟨Step.D, 0⟩]

/-- Under the guard `i + 3 < notes.length` the classifier is the table
`matchTriple` of the semitone triple, and the has-fifth flag is reported
exactly when classification succeeded. -/
theorem check_tetrachord_eq (notes : List Note) (i : Nat) (h : i + 3 < notes.length) :
    check_tetrachord notes i =
      (matchTriple (tetraIvals notes i),
       (matchTriple (tetraIvals notes i)).isSome && hasFifthAt notes i) := by
  unfold check_tetrachord matchTriple
  rw [if_neg (by omega)]
  split_ifs <;> rfl

/-- A successful classification needs a full four-note window. -/
theorem check_tetrachord_bound (notes : List Note) (i : Nat) (t : String)
    (hcls : (check_tetrachord notes i).1 = some t) : i + 3 < notes.length := by
  by_contra h
  unfold check_tetrachord at hcls
  rw [if_pos (by omega)] at hcls
  exact Option.noConfusion hcls

/-- C8: tetrachord classification depends only on the triple of consecutive
semitone counts and is exact-match on it: [2,2,1] yields major, [2,1,2]
minor, [1,3,1] phrygian, [2,2,2] lydian, any other triple nothing, and any
two four-note windows with equal triples — regardless of absolute pitch —
classify identically. -/
theorem tetrachord_classification (notes₁ notes₂ : List Note) (i j : Nat)
    (h₁ : i + 3 < notes₁.length) (h₂ : j + 3 < notes₂.length) :
    (tetraIvals notes₁ i = [2, 2, 1] → (check_tetrachord notes₁ i).1 = some "major") ∧
    (tetraIvals notes₁ i = [2, 1, 2] → (check_tetrachord notes₁ i).1 = some "minor") ∧
    (tetraIvals notes₁ i = [1, 3, 1] → (check_tetrachord notes₁ i).1 = some "phrygian") ∧
    (tetraIvals notes₁ i = [2, 2, 2] → (check_tetrachord notes₁ i).1 = some "lydian") ∧
    (tetraIvals notes₁ i ≠ [2, 2, 1] → tetraIvals notes₁ i ≠ [2, 1, 2] →
     tetraIvals notes₁ i ≠ [1, 3, 1] → tetraIvals notes₁ i ≠ [2, 2, 2] →
     (check_tetrachord notes₁ i).1 = none) ∧
    (tetraIvals notes₁ i = tetraIvals notes₂ j →
     (check_tetrachord notes₁ i).1 = (check_tetrachord notes₂ j).1) := by
  rw [check_tetrachord_eq notes₁ i h₁, check_tetrachord_eq notes₂ j h₂]
  refine ⟨?_, ?_, ?_, ?_, ?_, ?_⟩
  · intro hv; rw [hv]; rfl
  · intro hv; rw [hv]; rfl
  · intro hv; rw [hv]; rfl
  · intro hv; rw [hv]; rfl
  · intro h1 h2 h3 h4; simp [matchTriple, h1, h2, h3, h4]
  · intro hv; rw [hv]

/-- Closed instance of C8: the window C4 D4 E4 F4 measures [2,2,1] and is
classified major. -/
theorem tetrachord_classification_witness :
    (check_tetrachord [wC4, wD4, wE4, wF4] 0).1 = some "major" :=
  (tetrachord_classification [wC4, wD4, wE4, wF4] witNoFifthNotes 0 0
    (by decide) (by decide)).1 (by decide)

/-- C6: in the per-measure aggregator the bass voice's center is always its
last note in the measure; a non-bass voice's center is its own last note in
the measure unless the bass has notes there and the interval between the
bass's last note and that candidate is named a perfect fifth, in which case
the bass's last note becomes the center. -/
theorem mukhli_center_rule (notes bassNotes : List Note) (fin : Note)
    (hlast : notes.getLast? = some fin) :
    mukhliCenter true notes bassNotes = some fin ∧
    (bassNotes.getLast? = none → mukhliCenter false notes bassNotes = some fin) ∧
    (∀ bl, bassNotes.getLast? = some bl →
      mukhliCenter false notes bassNotes =
        some (if intervalName bl.pitch fin.pitch = "P5" then bl else fin)) := by
  refine ⟨?_, ?_, ?_⟩
  · simp [mukhliCenter, hlast]
  · intro h; simp [mukhliCenter, hlast, h]
  · intro bl h
    simp only [mukhliCenter, hlast, h, Bool.false_eq_true, if_false]
    split_ifs <;> rfl

/-- Closed instance of C6: with bass last note C4 and candidate G4 the
interval is a perfect fifth, so the bass note becomes the center. -/
theorem mukhli_center_rule_witness :
    mukhliCenter false [wG4] [wC4] =
      some (if intervalName wC4.pitch wG4.pitch = "P5" then wC4 else wG4) :=
  (mukhli_center_rule [wG4] [wC4] wG4 rfl).2.2 wC4 rfl

/-- C1: at a start index where classification succeeded, assuming every
contributing note carries at least two lyrics, an occurrence is emitted iff
the has-fifth flag is set or a note exists at `i + 4` whose interval from
note `i` is not named a perfect fifth; consequently a classified tetrachord
whose fourth note is the voice's last note is never emitted. -/
theorem tetrachord_emission_rule (notes : List Note) (i : Nat) (t : String)
    (hcls : (check_tetrachord notes i).1 = some t)
    (hlyr : ∀ n ∈ contributingNotes notes i, 1 < n.lyrics.length) :
    ((tetrachordEmission notes i).isSome = true ↔
      ((check_tetrachord notes i).2 = true ∨
       (i + 4 < notes.length ∧
        intervalName (noteAt notes i).pitch (noteAt notes (i + 4)).pitch ≠ "P5"))) ∧
    (notes.length = i + 4 → tetrachordEmission notes i = none) := by
  have hb := check_tetrachord_bound notes i t hcls
  rcases hc : check_tetrachord notes i with ⟨c₁, c₂⟩
  have hc₁ : c₁ = some t := by rw [hc] at hcls; exact hcls
  subst hc₁
  cases c₂ with
  | true =>
    have hok : tetraBaseOk notes i = true := by
      unfold tetraBaseOk
      rw [List.all_eq_true]
      intro n hn
      rw [decide_eq_true_eq]
      apply hlyr
      unfold contributingNotes
      rw [hc]
      have hn5 : n ∈ ((notes.drop i).take 5).take 4 := by
        rw [List.take_take]
        exact hn
      exact List.take_subset 4 _ hn5
    have hfif : i + 4 < notes.length := by
      have he := check_tetrachord_eq notes i hb
      rw [hc] at he
      have h2 : true = ((matchTriple (tetraIvals notes i)).isSome && hasFifthAt notes i) :=
        congrArg Prod.snd he
      rcases Bool.and_eq_true_iff.mp h2.symm with ⟨_, h3⟩
      unfold hasFifthAt at h3
      rcases Bool.and_eq_true_iff.mp h3 with ⟨h4, _⟩
      exact of_decide_eq_true h4
    constructor
    · simp [tetrachordEmission, hc, hok]
    · intro hlen
      exact absurd hfif (by omega)
  | false =>
    have hok : tetraBaseOk notes i = true := by
      unfold tetraBaseOk
      rw [List.all_eq_true]
      intro n hn
      rw [decide_eq_true_eq]
      apply hlyr
      unfold contributingNotes
      rw [hc]
      exact hn
    constructor
    · by_cases hq : (i + 4 < notes.length ∧
        intervalName (noteAt notes i).pitch (noteAt notes (i + 4)).pitch ≠ "P5")
      · simp [tetrachordEmission, hc, hok, hq]
      · simp [tetrachordEmission, hc, hok, hq]
    · intro hlen
      have hnq : ¬ (i + 4 < notes.length ∧
          intervalName (noteAt notes i).pitch (noteAt notes (i + 4)).pitch ≠ "P5") := by
        intro ⟨h5, _⟩
        omega
      simp [tetrachordEmission, hc, hok, hnq]

/-- Closed instance of C1: the fully annotated major tetrachord followed by
its perfect fifth is emitted, via the has-fifth disjunct. -/
theorem tetrachord_emission_rule_witness :
    (tetrachordEmission witFifthNotes 0).isSome = true :=
  ((tetrachord_emission_rule witFifthNotes 0 "major" (by decide) (by decide)).1).mpr
    (Or.inl (by decide))

/-- C2 counterexample: at start index 0 of C4 D4 E4 F4 G4-without-lyrics the
tetrachord is fifth-qualified and the fifth note carries fewer than two
annotations, yet an occurrence IS emitted (under the plain key with the four
base QNRs), contradicting the claim that none is emitted at all. -/
theorem tetrachord_fifth_lyric_cex :
    (check_tetrachord cexFifthNotes 0).2 = true ∧
    (noteAt cexFifthNotes 4).lyrics.length < 2 ∧
    tetrachordEmission cexFifthNotes 0 =
      some ("major_tetrachord", ["1", "2", "3", "4"]) := by
  refine ⟨rfl, by decide, rfl⟩

/-- C2 amended: the at-least-two-annotations requirement gates only the four
window notes — if any of them carries fewer than two lyrics the occurrence is
skipped entirely; but a fifth-qualified occurrence whose fifth note carries
fewer than two lyrics is still emitted, under the plain non-fifth key with
only the four base QNRs. -/
theorem tetrachord_lyric_requirement (notes : List Note) (i : Nat) (t : String)
    (hcls : (check_tetrachord notes i).1 = some t) :
    ((∃ n ∈ (notes.drop i).take 4, n.lyrics.length ≤ 1) →
      tetrachordEmission notes i = none) ∧
    ((∀ n ∈ (notes.drop i).take 4, 1 < n.lyrics.length) →
      (check_tetrachord notes i).2 = true →
      (noteAt notes (i + 4)).lyrics.length ≤ 1 →
      tetrachordEmission notes i = some (t ++ "_tetrachord", tetraQnrs notes i)) := by
  rcases hc : check_tetrachord notes i with ⟨c₁, c₂⟩
  have hc₁ : c₁ = some t := by rw [hc] at hcls; exact hcls
  subst hc₁
  constructor
  · intro ⟨n, hn, hlen⟩
    have hok : ¬ (tetraBaseOk notes i = true) := by
      unfold tetraBaseOk
      rw [List.all_eq_true]
      intro hall
      have := hall n hn
      rw [decide_eq_true_eq] at this
      omega
    simp [tetrachordEmission, hc, hok]
  · intro hall h2 hlen5
    have hcc : c₂ = true := h2
    subst hcc
    have hok : tetraBaseOk notes i = true := by
      unfold tetraBaseOk
      rw [List.all_eq_true]
      intro n hn
      rw [decide_eq_true_eq]
      exact hall n hn
    have hkq : tetraKeyQnrs notes i t true = (t ++ "_tetrachord", tetraQnrs notes i) := by
      unfold tetraKeyQnrs
      rw [if_neg]
      intro ⟨_, _, h5⟩
      omega
    simp [tetrachordEmission, hc, hok, hkq]

/-- Closed instance of the amended C2 at the counterexample input: the
under-annotated fifth demotes the occurrence to the plain key. -/
theorem tetrachord_lyric_requirement_witness :
    tetrachordEmission cexFifthNotes 0 =
      some ("major" ++ "_tetrachord", tetraQnrs cexFifthNotes 0) :=
  (tetrachord_lyric_requirement cexFifthNotes 0 "major" (by decide)).2
    (by decide) (by decide) (by decide)

/-- If some handled file fails analyzer construction, the whole driver run is
an error: nothing catches the exception inside the loop. -/
theorem process_error_of_mem (so : SetOrder) :
    ∀ files : List RawFile,
      (∃ f ∈ files, strEndsWith f.filename ".xml" = true ∧ isErr (analyzeChant so f) = true) →
      ∃ e, process_chant_files so files = Except.error e := by
  intro files
  induction files with
  | nil =>
    intro ⟨f, hf, _⟩
    exact absurd hf (List.not_mem_nil f)
  | cons f fs ih =>
    intro ⟨g, hg, hxml, herr⟩
    unfold process_chant_files
    by_cases hx : strEndsWith f.filename ".xml" = true
    · rw [if_pos hx]
      cases he : analyzeChant so f with
      | error e => exact ⟨e, rfl⟩
      | ok r =>
        rcases List.mem_cons.mp hg with rfl | hgfs
        · rw [he] at herr
          exact absurd herr (by simp [isErr])
        · obtain ⟨e, hfs⟩ := ih ⟨g, hgfs, hxml, herr⟩
          exact ⟨e, by rw [hfs]⟩
    · rw [if_neg hx]
      rcases List.mem_cons.mp hg with rfl | hgfs
      · exact absurd hxml hx
      · exact ih ⟨g, hgfs, hxml, herr⟩

/-- C3 counterexample: one well-parsed three-part score whose filename merely
lacks the underscore structure aborts the entire corpus run with an uncaught
error, contradicting the claim that only the missing-input-directory
condition terminates the program. -/
theorem driver_abort_cex :
    mainEntry soEmpty true [badFile] =
      Except.error "IndexError: filename has no second underscore token" := rfl

/-- C3 amended: the missing-input-directory condition exits gracefully, but a
per-chant analyzer-construction failure (unparsable score, fewer than three
parts, malformed filename) on any handled file aborts the whole corpus run;
only errors inside mode extraction and per-measure processing are caught. -/
theorem driver_error_propagation (so : SetOrder) (files : List RawFile)
    (h : ∃ f ∈ files, strEndsWith f.filename ".xml" = true ∧ isErr (analyzeChant so f) = true) :
    (∀ fs : List RawFile, mainEntry so false fs = Except.ok none) ∧
    ∃ e, mainEntry so true files = Except.error e := by
  refine ⟨fun fs => rfl, ?_⟩
  obtain ⟨e, he⟩ := process_error_of_mem so files h
  exact ⟨e, by unfold mainEntry; rw [if_pos rfl, he]; rfl⟩

/-- Closed instance of C3's amended rule at the malformed-filename file. -/
theorem driver_error_propagation_witness :
    ∃ e, mainEntry soEmpty true [badFile] = Except.error e :=
  (driver_error_propagation soEmpty [badFile]
    ⟨badFile, List.mem_singleton.mpr rfl, rfl, rfl⟩).2

/-- C10: the analyses are functions of the first three parts (top, middle,
bass) and the chant id alone — two parsed scores agreeing on their first
three parts yield identical voice extraction, full-mode records, per-measure
mode records and pattern occurrences, extra parts notwithstanding. -/
theorem first_three_parts_determine_analysis (so : SetOrder) (g : String)
    (parts₁ parts₂ : List Part) (h : parts₁.take 3 = parts₂.take 3) :
    extract_voices parts₁ = extract_voices parts₂ ∧
    chantAnalysis so g parts₁ = chantAnalysis so g parts₂ := by
  have key : ∀ k : Nat, k < 3 → parts₁[k]? = parts₂[k]? := by
    intro k hk
    have e₁ : (parts₁.take 3)[k]? = parts₁[k]? := List.getElem?_take_of_lt hk
    have e₂ : (parts₂.take 3)[k]? = parts₂[k]? := List.getElem?_take_of_lt hk
    rw [← e₁, ← e₂, h]
  have hv : extract_voices parts₁ = extract_voices parts₂ := by
    unfold extract_voices
    rw [key 0 (by omega), key 1 (by omega), key 2 (by omega)]
  exact ⟨hv, by unfold chantAnalysis; rw [hv]⟩

/-- Closed instance of C10: adding a surplus fourth part changes nothing. -/
theorem first_three_parts_determine_analysis_witness :
    chantAnalysis soEmpty "007" [ptA, ptB, ptC] =
      chantAnalysis soEmpty "007" [ptA, ptB, ptC, ptD] :=
  (first_three_parts_determine_analysis soEmpty "007"
    [ptA, ptB, ptC] [ptA, ptB, ptC, ptD] rfl).2

/-- Every recorded pair of `check_consecutive_notes` comes from a consecutive
note pair whose interval name equals the target exactly. -/
theorem check_consecutive_mem (target : String) (p : String × String) :
    ∀ notes : List Note, p ∈ check_consecutive_notes notes target →
      ∃ l₁ l₂ n₁ n₂, notes = l₁ ++ n₁ :: n₂ :: l₂ ∧
        intervalName n₁.pitch n₂.pitch = target ∧
        p = (n₁.lyrics.getD 1 "", n₂.lyrics.getD 1 "")
  | [], h => by simp [check_consecutive_notes] at h
  | [n], h => by simp [check_consecutive_notes] at h
  | n₁ :: n₂ :: rest, h => by
    unfold check_consecutive_notes at h
    rcases List.mem_append.mp h with h' | h'
    · by_cases hc : intervalName n₁.pitch n₂.pitch = target ∧
          1 < n₁.lyrics.length ∧ 1 < n₂.lyrics.length
      · rw [if_pos hc] at h'
        rw [List.mem_singleton] at h'
        exact ⟨[], rest, n₁, n₂, rfl, hc.1, h'⟩
      · rw [if_neg hc] at h'
        exact absurd h' (List.not_mem_nil p)
    · obtain ⟨l₁, l₂, m₁, m₂, heq, hname, hp⟩ :=
        check_consecutive_mem target p (n₂ :: rest) h'
      exact ⟨n₁ :: l₁, l₂, m₁, m₂, by rw [heq, List.cons_append], hname, hp⟩

/-- C7: a melodic-interval occurrence is recorded only when the interval's
name equals the target exactly; semitone equality is not sufficient — the
augmented second C4-D#4 spans 3 semitones yet yields no minor-third
occurrence, while the true minor third C4-E-4, also 3 semitones, does. -/
theorem interval_pattern_exact_name :
    (∀ (notes : List Note) (target : String) (p : String × String),
      p ∈ check_consecutive_notes notes target →
      ∃ l₁ l₂ n₁ n₂, notes = l₁ ++ n₁ :: n₂ :: l₂ ∧
        intervalName n₁.pitch n₂.pitch = target ∧
        p = (n₁.lyrics.getD 1 "", n₂.lyrics.getD 1 "")) ∧
    semitones wC4.pitch wDs4.pitch = 3 ∧
    intervalName wC4.pitch wDs4.pitch = "A2" ∧
    check_consecutive_notes [wC4, wDs4] "m3" = [] ∧
    semitones wC4.pitch wEb4.pitch = 3 ∧
    intervalName wC4.pitch wEb4.pitch = "m3" ∧
    check_consecutive_notes [wC4, wEb4] "m3" = [("1", "3")] := by
  refine ⟨fun notes target p h => check_consecutive_mem target p notes h,
    by decide, by decide, by decide, by decide, by decide, by decide⟩

/-- Closed instance of C7: the single minor-third occurrence in C4 E-4 comes
from an exactly-named consecutive pair. -/
theorem interval_pattern_exact_name_witness :
    ∃ l₁ l₂ n₁ n₂, ([wC4, wEb4] : List Note) = l₁ ++ n₁ :: n₂ :: l₂ ∧
      intervalName n₁.pitch n₂.pitch = "m3" ∧
      (("1", "3") : String × String) = (n₁.lyrics.getD 1 "", n₂.lyrics.getD 1 "") :=
  interval_pattern_exact_name.1 [wC4, wEb4] "m3" ("1", "3") (by decide)

/-- Space-joining a nonempty token list yields a string starting with the
head token. -/
theorem joinSpace_cons (s : String) (l : List String) :
    ∃ t, joinSpace (s :: l) = s ++ t := by
  cases l with
  | nil => exact ⟨"", (String.append_empty s).symm⟩
  | cons b r => exact ⟨" " ++ joinSpace (b :: r), String.append_assoc s " " (joinSpace (b :: r))⟩

/-- The rotation of `extract_mode` places the center's name first whenever
the center's name is in the set. -/
theorem extract_mode_tokens_head (pcs : List PC) (c : PC)
    (hmem : c.name ∈ pcs.map PC.name) :
    ∃ rest, extract_mode_tokens pcs c = c.name :: rest := by
  obtain ⟨q, hq, hqn⟩ := List.mem_map.mp hmem
  have hqs : q ∈ sortedPitches pcs c := by
    unfold sortedPitches
    rw [List.mem_insertionSort]
    exact hq
  have hlt0 : (sortedPitches pcs c).findIdx (fun p => p.name == c.name) <
      (sortedPitches pcs c).length :=
    List.findIdx_lt_length_of_exists ⟨q, hqs, beq_iff_eq.mpr hqn⟩
  have hlt : modeIdx pcs c < (sortedPitches pcs c).length := hlt0
  have hname : ((sortedPitches pcs c).get ⟨modeIdx pcs c, hlt⟩).name = c.name := by
    have hb := @List.findIdx_getElem _ (fun p => p.name == c.name) (sortedPitches pcs c) hlt0
    exact beq_iff_eq.mp hb
  refine ⟨((sortedPitches pcs c).drop (modeIdx pcs c + 1) ++
    (sortedPitches pcs c).take (modeIdx pcs c)).map PC.name, ?_⟩
  unfold extract_mode_tokens
  rw [List.drop_eq_getElem_cons hlt, List.cons_append, List.map_cons]
  rw [show (sortedPitches pcs c).get ⟨modeIdx pcs c, hlt⟩ =
    (sortedPitches pcs c)[modeIdx pcs c] from rfl] at hname
  rw [hname]

/-- C4: for every non-empty note sequence, the mode string begins with the
center note's pitch-class name — the center's name is the first
space-separated token of the output. -/
theorem mode_starts_with_center (pcs : List PC) (notes : List Note) (c : Note)
    (hne : notes ≠ []) (hmem : c.pitch.pc.name ∈ pcs.map PC.name) :
    (extract_mode_tokens pcs c.pitch.pc).head? = some c.pitch.pc.name ∧
    ∃ t, extract_mode pcs notes c = c.pitch.pc.name ++ t := by
  obtain ⟨rest, hr⟩ := extract_mode_tokens_head pcs c.pitch.pc hmem
  constructor
  · rw [hr]
    rfl
  · have hie : notes.isEmpty = false := by
      cases notes with
      | nil => exact absurd rfl hne
      | cons a l => rfl
    unfold extract_mode
    rw [hie, if_neg Bool.false_ne_true, hr]
    exact joinSpace_cons c.pitch.pc.name rest

/-- Closed instance of C4 on the set C, D#, E- centered at C. -/
theorem mode_starts_with_center_witness :
    (extract_mode_tokens ordA wC4.pitch.pc).head? = some wC4.pitch.pc.name ∧
    ∃ t, extract_mode ordA [wC4, wDs4, wEb4] wC4 = wC4.pitch.pc.name ++ t :=
  mode_starts_with_center ordA [wC4, wDs4, wEb4] wC4 (by decide) (by decide)

/-- The mode token list is a permutation of the set's names: sorting and
rotation rearrange, never add or drop. -/
theorem extract_mode_tokens_perm (pcs : List PC) (c : PC) :
    (extract_mode_tokens pcs c).Perm (pcs.map PC.name) := by
  unfold extract_mode_tokens
  have h1 : ((sortedPitches pcs c).drop (modeIdx pcs c) ++
      (sortedPitches pcs c).take (modeIdx pcs c)).Perm (sortedPitches pcs c) := by
    have h2 := List.take_append_drop (modeIdx pcs c) (sortedPitches pcs c)
    have h3 : ((sortedPitches pcs c).drop (modeIdx pcs c) ++
        (sortedPitches pcs c).take (modeIdx pcs c)).Perm
        ((sortedPitches pcs c).take (modeIdx pcs c) ++
         (sortedPitches pcs c).drop (modeIdx pcs c)) := List.perm_append_comm
    rw [h2] at h3
    exact h3
  exact (h1.map PC.name).trans ((List.perm_insertionSort (pcLe c) pcs).map PC.name)

/-- C5: the tokens of the mode string are duplicate-free and are exactly the
distinct pitch-class names occurring in the input sequence together with the
center's pitch class, for every rotation start (set iteration order). -/
theorem mode_tokens_characterization (pcs : List PC) (notes : List Note) (c : Note)
    (hnd : (pcs.map PC.name).Nodup)
    (hset : ∀ s, s ∈ pcs.map PC.name ↔
      (s ∈ notes.map (fun n => n.pitch.pcName) ∨ s = c.pitch.pcName)) :
    (extract_mode_tokens pcs c.pitch.pc).Nodup ∧
    ∀ s, s ∈ extract_mode_tokens pcs c.pitch.pc ↔
      (s ∈ notes.map (fun n => n.pitch.pcName) ∨ s = c.pitch.pcName) := by
  have hp := extract_mode_tokens_perm pcs c.pitch.pc
  exact ⟨hp.nodup_iff.mpr hnd, fun s => (hp.mem_iff).trans (hset s)⟩

/-- Closed instance of C5 on the set C, D#, E- centered at C. -/
theorem mode_tokens_characterization_witness :
    (extract_mode_tokens ordA wC4.pitch.pc).Nodup ∧
    ∀ s, s ∈ extract_mode_tokens ordA wC4.pitch.pc ↔
      (s ∈ ([wC4, wDs4, wEb4] : List Note).map (fun n => n.pitch.pcName) ∨
       s = wC4.pitch.pcName) :=
  mode_tokens_characterization ordA [wC4, wDs4, wEb4] wC4 (by decide)
    (by
      intro s
      show s ∈ ["C", "D#", "E-"] ↔ (s ∈ ["C", "D#", "E-"] ∨ s = "C")
      constructor
      · exact fun h => Or.inl h
      · intro h
        rcases h with h | rfl
        · exact h
        · exact List.mem_cons_self _ _)

/-- C9 counterexample: two legitimate iteration orders of the same
pitch-class set (a permutation, duplicate-free) yield different mode strings
for the same notes and center, because D# and E- are tied at 3 semitones
above the center C and Python's stable sort preserves the set order of ties;
set iteration order of strings varies across processes, so two runs of the
driver need not produce byte-identical tables. -/
theorem mode_set_order_cex :
    ordA.Perm ordB ∧
    (ordA.map PC.name).Nodup ∧
    sortKey wC4.pitch.pc ⟨Step.D, 1⟩ = sortKey wC4.pitch.pc ⟨Step.E, -1⟩ ∧
    extract_mode ordA [wC4, wDs4, wEb4] wC4 = "C D# E-" ∧
    extract_mode ordB [wC4, wDs4, wEb4] wC4 = "C E- D#" ∧
    extract_mode ordA [wC4, wDs4, wEb4] wC4 ≠ extract_mode ordB [wC4, wDs4, wEb4] wC4 :=
  ⟨by decide, by decide, by decide, by decide, by decide, by decide⟩

/-- Two iteration orders of a set with pairwise distinct sort keys sort to
the same list: a stable sort with an injective key is order-oblivious. -/
theorem sortedPitches_eq_of_perm (c : PC) (l₁ l₂ : List PC) (hperm : l₁.Perm l₂)
    (hkeys : (l₁.map (sortKey c)).Nodup) :
    sortedPitches l₁ c = sortedPitches l₂ c := by
  have hp : (sortedPitches l₁ c).Perm (sortedPitches l₂ c) :=
    (List.perm_insertionSort (pcLe c) l₁).trans
      (hperm.trans (List.perm_insertionSort (pcLe c) l₂).symm)
  have hs₁ : List.Sorted (pcLe c) (sortedPitches l₁ c) :=
    List.sorted_insertionSort (pcLe c) l₁
  have hs₂ : List.Sorted (pcLe c) (sortedPitches l₂ c) :=
    List.sorted_insertionSort (pcLe c) l₂
  have hk₁ : ((sortedPitches l₁ c).map (sortKey c)).Nodup :=
    (((List.perm_insertionSort (pcLe c) l₁)).map (sortKey c)).nodup_iff.mpr hkeys
  have hk₂ : ((sortedPitches l₂ c).map (sortKey c)).Nodup :=
    ((hp.map (sortKey c)).nodup_iff).mp hk₁
  have hstrict : ∀ l : List PC, List.Sorted (pcLe c) l → (l.map (sortKey c)).Nodup →
      List.Sorted (fun a b => sortKey c a < sortKey c b) l := by
    intro l hs hn
    have hne : List.Pairwise (fun a b => sortKey c a ≠ sortKey c b) l :=
      List.pairwise_map.mp hn
    exact List.Pairwise.imp₂ (fun a b hab hab' => lt_of_le_of_ne hab hab') hs hne
  haveI : IsAntisymm PC (fun a b => sortKey c a < sortKey c b) :=
    ⟨fun a b h₁ h₂ => absurd (h₁.trans h₂) (lt_irrefl _)⟩
  exact List.eq_of_perm_of_sorted hp (hstrict _ hs₁ hk₁) (hstrict _ hs₂ hk₂)

/-- C9 amended: for each fixed set-iteration order the extractor (and hence
the driver) is deterministic, and whenever no two distinct pitch-class names
in the set share the same semitone offset mod 12 from the center — no
enharmonic ties — the mode string is the same for every iteration order, so
only tied spellings can differ between runs. -/
theorem mode_order_invariant_without_ties (pcs₁ pcs₂ : List PC) (notes : List Note)
    (c : Note) (hperm : pcs₁.Perm pcs₂)
    (hkeys : (pcs₁.map (sortKey c.pitch.pc)).Nodup) :
    extract_mode pcs₁ notes c = extract_mode pcs₂ notes c := by
  have hs := sortedPitches_eq_of_perm c.pitch.pc pcs₁ pcs₂ hperm hkeys
  unfold extract_mode extract_mode_tokens modeIdx
  rw [hs]

/-- Closed instance of the amended C9 on the tie-free set C, D, E. -/
theorem mode_order_invariant_without_ties_witness :
    extract_mode ordC [wC4, wD4, wE4] wC4 = extract_mode ordD [wC4, wD4, wE4] wC4 :=
  mode_order_invariant_without_ties ordC ordD [wC4, wD4, wE4] wC4 (by decide) (by decide)

end Erko
